import Mathlib

/-!
Forward HTTP proxy (`proxy.c`): embedding and verification

Bytes are natural numbers; a buffer is a `List Nat`.  A C string is read from
a buffer up to (not including) its first `0` byte; reading past the end of a
list behaves like reading a `0`.  Pointers into a buffer are offsets.
-/

set_option maxRecDepth 100000

namespace Proxy

/-- The macro `BUF_SIZE` of `proxy.h`. -/
def BUF_SIZE : Nat := 8192

/-- The bytes of an ASCII string literal. -/
def bytes (s : String) : List Nat := s.toList.map Char.toNat

/-- The C string stored at the start of a buffer: the bytes before the first NUL. -/
def cstr (s : List Nat) : List Nat := s.takeWhile (fun c => c != 0)

/-- Library `strlen`. -/
def strlen (s : List Nat) : Nat := (cstr s).length

/-- Library `isspace` in the C locale: space, `\t`, `\n`, `\v`, `\f`, `\r`. -/
def isspace (c : Nat) : Bool := c == 32 || (9 ≤ c && c ≤ 13)

/-- Library `tolower` in the C locale. -/
def tolower (c : Nat) : Nat := if 65 ≤ c ∧ c ≤ 90 then c + 32 else c

/-- Library `isdigit`. -/
def isdigit (c : Nat) : Bool := 48 ≤ c && c ≤ 57

/-- First offset at which `needle` occurs in `hay` (plain list search). -/
def findSub (needle : List Nat) : List Nat → Option Nat
  | [] => if needle.isEmpty then some 0 else none
  | c :: rest =>
    if needle.isPrefixOf (c :: rest) then some 0
    else (findSub needle rest).map (fun i => i + 1)

/-- Library `strstr`: offset of the first occurrence of the C string `needle`
in the C string `hay`, `none` for `NULL`. -/
def strstr (hay needle : List Nat) : Option Nat := findSub (cstr needle) (cstr hay)

/-- Library `strchr` for a non-NUL character `c`. -/
def strchr (s : List Nat) (c : Nat) : Option Nat := findSub [c] (cstr s)

/-- Library `strncmp(a, b, n) == 0`. -/
def strncmp_eq : List Nat → List Nat → Nat → Bool
  | _, _, 0 => true
  | a, b, n + 1 =>
    let ca := a.headD 0
    let cb := b.headD 0
    if ca != cb then false
    else if ca == 0 then true
    else strncmp_eq a.tail b.tail n

/-- Library `strncasecmp`: the difference of the first pair of lowered bytes
that differ within `n` bytes, `0` when there is none before a common NUL. -/
def strncasecmp : List Nat → List Nat → Nat → Int
  | _, _, 0 => 0
  | a, b, n + 1 =>
    let ca := tolower (a.headD 0)
    let cb := tolower (b.headD 0)
    if ca != cb then (ca : Int) - (cb : Int)
    else if ca == 0 then 0
    else strncasecmp a.tail b.tail n

/-- The `for (p = haystack; *p; p++)` loop of `strcasestr_custom`; `i` is the
offset of `p` from `haystack`. -/
def strcasestr_loop (needle : List Nat) (needle_len : Nat) : List Nat → Nat → Option Nat
  | [], _ => none
  | c :: rest, i =>
    if c == 0 then none
    else if strncasecmp (c :: rest) needle needle_len == 0 then some i
    else strcasestr_loop needle needle_len rest (i + 1)

/-- `strcasestr_custom` of `proxy.c` (both pointers non-null): offset of the
first case-insensitive occurrence of `needle`, `none` for `NULL`. -/
def strcasestr_custom (haystack needle : List Nat) : Option Nat :=
  let needle_len := strlen needle
  if needle_len == 0 then some 0
  else strcasestr_loop needle needle_len haystack 0

/-- Library `memcmp(a, b, n) == 0` on buffers holding at least `n` bytes. -/
def memcmp_eq (a b : List Nat) (n : Nat) : Bool := a.take n == b.take n

/-- The `for (i = 0; i <= haystack_len - needle_len; i++)` loop of
`memmem_custom`, with `count` iterations left to run from offset `i`. -/
def memmem_loop (n : List Nat) (needle_len : Nat) : Nat → List Nat → Nat → Option Nat
  | 0, _, _ => none
  | count + 1, h, i =>
    if memcmp_eq h n needle_len then some i
    else memmem_loop n needle_len count h.tail (i + 1)

/-- `memmem_custom` of `proxy.c`: offset of the first occurrence of the
`needle_len` bytes of `needle` in the first `haystack_len` bytes of `haystack`. -/
def memmem_custom (haystack : List Nat) (haystack_len : Nat)
    (needle : List Nat) (needle_len : Nat) : Option Nat :=
  if needle_len == 0 then some 0
  else if haystack_len < needle_len then none
  else memmem_loop needle needle_len (haystack_len - needle_len + 1) haystack 0

/-- Matching of the literal (non-whitespace) characters of a `scanf` format:
the rest of the input on success, else the value `sscanf` returns when no
conversion has been made yet (`-1` = `EOF` at end of input, `0` on a mismatch). -/
def scan_literal : List Nat → List Nat → Except Int (List Nat)
  | [], s => .ok s
  | _ :: _, [] => .error (-1)
  | l :: ls, c :: cs => if l == c then scan_literal ls cs else .error 0

/-- Library call `sscanf(request, "GET %1023s HTTP/1.1", uri)`: the returned
count and the token stored in `uri` (`[]` when nothing is stored).  Once `%1023s`
has stored its token the count is `1`, whatever follows in the input. -/
def sscanf_GET (request : List Nat) : Int × List Nat :=
  match scan_literal (bytes "GET") (cstr request) with
  | .error r => (r, [])
  | .ok rest =>
    let tok := ((rest.dropWhile isspace).takeWhile (fun c => !isspace c)).take 1023
    if tok.isEmpty then (-1, []) else (1, tok)

/-- Result of `parse_request`: the returned flag and the two output buffers
(as C strings; both start zeroed in `handle_client`). -/
structure Parsed where
  ret : Int
  uri : List Nat
  host : List Nat
deriving DecidableEq

/-- The loop `while (hlen > 0 && (host[hlen-1] == ' ' || host[hlen-1] == '\t'))`
of `parse_request`, on the reversed host bytes. -/
def trim_trailing (host : List Nat) : List Nat :=
  (host.reverse.dropWhile (fun c => c == 32 || c == 9)).reverse

/-- `parse_request` of `proxy.c`. -/
def parse_request (request : List Nat) : Parsed :=
  match strstr request (bytes "\r\n") with
  | none => ⟨0, [], []⟩
  | some request_line_end =>
    let (n, uri) := sscanf_GET request
    if n != 1 then ⟨0, uri, []⟩
    else
      let headers_start := (cstr request).drop (request_line_end + 2)
      match strcasestr_custom headers_start (bytes "Host:") with
      | none => ⟨0, uri, []⟩
      | some host_line =>
        match strchr (headers_start.drop host_line) 58 with
        | none => ⟨0, uri, []⟩
        | some colon =>
          let hs := ((headers_start.drop host_line).drop (colon + 1)).dropWhile
            (fun c => c == 32 || c == 9)
          let hlen := (hs.takeWhile (fun c => c != 0 && c != 13 && c != 10)).length
          let hlen := if hlen ≥ 256 then 255 else hlen
          ⟨1, uri, trim_trailing (hs.take hlen)⟩

/-- Result of `adjust_actual_host_uri`: the three output buffers as C strings. -/
structure Target where
  actual_host : List Nat
  actual_uri : List Nat
  print_uri : List Nat
deriving DecidableEq

/-- `adjust_actual_host_uri` of `proxy.c`.  `uhs` is `uri + 7`, the offset
`uhe` returned by `strchr` is `uhe - uhs`. -/
def adjust_actual_host_uri (host uri : List Nat) : Target :=
  let actual_host := cstr host
  let actual_uri := cstr uri
  let print_uri := cstr uri
  if strncmp_eq uri (bytes "http://") 7 then
    let uhs := (cstr uri).drop 7
    match strchr uhs 47 with
    | some uhe =>
      let hlen := uhe
      if hlen < 256 then ⟨uhs.take hlen, uhs.drop uhe, print_uri⟩
      else ⟨actual_host, actual_uri, print_uri⟩
    | none => ⟨actual_host, bytes "/", print_uri⟩
  else ⟨actual_host, actual_uri, print_uri⟩

/-- What one peer does next on a socket we read from: bytes arrive (the empty
chunk is the orderly close, `recv` returns `0`), or the read fails (`-1`). -/
inductive Recv where
  | data (chunk : List Nat)
  | error
deriving DecidableEq

/-- Library `recv(fd, buf, n, 0)` against the script of a peer: `none` for `-1`,
else the bytes stored in `buf` (their number is the return value, at most `n`;
bytes that did not fit stay queued).  An exhausted script is a closed peer. -/
def recv (script : List Recv) (n : Nat) : Option (List Nat) × List Recv :=
  match script with
  | [] => (some [], [])
  | .error :: rest => (none, rest)
  | .data c :: rest =>
    if c.length ≤ n then (some c, rest) else (some (c.take n), .data (c.drop n) :: rest)

/-- Observable actions of `handle_client`, in order: socket operations and the
`stdout` lines `GETting <host> <print_uri>` and `Response body length <n>`. -/
inductive Event where
  | close_client
  | close_server
  | connect (hostname port : List Nat) (ok : Bool)
  | to_server (data : List Nat)
  | to_client (data : List Nat)
  | getting (host print_uri : List Nat)
  | body_length (n : Int)
deriving DecidableEq

/-- The bytes that a trace writes to the client socket. -/
def client_bytes : List Event → List Nat
  | [] => []
  | .to_client d :: rest => d ++ client_bytes rest
  | _ :: rest => client_bytes rest

/-- The bytes that a trace writes to the upstream socket. -/
def server_bytes : List Event → List Nat
  | [] => []
  | .to_server d :: rest => d ++ server_bytes rest
  | _ :: rest => server_bytes rest

/-- A peer we write to: the value `send` returns on its `i`-th call (counted
from `0` on that socket) when asked to transmit `n` bytes; negative is failure. -/
abbrev Sender := Nat → Nat → Int

/-- The loop `while (sent_total < bytes) { sent = send(fd, buf + sent_total,
bytes - sent_total, MSG_NOSIGNAL); if (sent < 0) return; sent_total += sent; }`
shared by `forward_request_to_server` and `relay_response`.  `mk` tags the
transmitted bytes with the socket.  Result: `none` when `fuel` calls did not
finish the loop; else whether every byte was sent, the calls made so far, and
the trace.  Bytes past the end of `buf` are outside the model. -/
def send_loop (peer : Sender) (mk : List Nat → Event) (buf : List Nat) (bytes : Nat) :
    Nat → Nat → Nat → List Event → Option (Bool × Nat × List Event)
  | 0, sent_total, calls, log =>
    if sent_total < bytes then none else some (true, calls, log)
  | fuel + 1, sent_total, calls, log =>
    if sent_total < bytes then
      let sent := peer calls (bytes - sent_total)
      if sent < 0 then some (false, calls + 1, log)
      else
        send_loop peer mk buf bytes fuel (sent_total + sent.toNat) (calls + 1)
          (log ++ [mk ((buf.drop sent_total).take sent.toNat)])
    else some (true, calls, log)

/-- `forward_request_to_server` of `proxy.c`: `0` or `-1`, with the trace. -/
def forward_request_to_server (fuel : Nat) (server : Sender) (request : List Nat)
    (request_len : Nat) : Option (Int × List Event) :=
  match send_loop server Event.to_server request request_len fuel 0 0 [] with
  | none => none
  | some (ok, _, log) => some (if ok then 0 else -1, log)

/-- Conversion of a decimal digit string. -/
def digits_value (ds : List Nat) : Nat := ds.foldl (fun acc d => 10 * acc + (d - 48)) 0

/-- Library call `sscanf(cl, "Content-Length: %d", &content_length)`: the
returned count and the stored value.  The literal part of the format is
matched byte for byte (case-sensitively); `%d` takes an optional sign and at
least one digit; the value is converted as by `strtol` and stored in an `int`
(clamped to 64 bits, then cut to 32 bits two's complement). -/
def sscanf_Content_Length (cl : List Nat) : Int × Int :=
  match scan_literal (bytes "Content-Length:") (cstr cl) with
  | .error r => (r, 0)
  | .ok rest =>
    let rest := rest.dropWhile isspace
    let (neg, rest) :=
      match rest with
      | 45 :: r => (true, r)
      | 43 :: r => (false, r)
      | r => (false, r)
    let ds := rest.takeWhile isdigit
    if ds.isEmpty then (if rest.isEmpty then -1 else 0, 0)
    else
      let v : Int := if neg then -(digits_value ds : Int) else (digits_value ds : Int)
      let long := max (-(2 ^ 63 : Int)) (min v (2 ^ 63 - 1))
      (1, (long + 2 ^ 31) % 2 ^ 32 - 2 ^ 31)

/-- Local variables of `relay_response` between iterations.  `header_buffer`
holds the `header_len` bytes copied so far; the rest of the zeroed array
`char header_buffer[BUF_SIZE * 2]` is NUL. -/
structure RelayState where
  header_buffer : List Nat
  headers_complete : Bool
  content_length_printed : Bool
  calls : Nat
  log : List Event
deriving DecidableEq

/-- The header-sniffing block `if (!headers_complete && header_len + bytes <
sizeof(header_buffer)) { ... }` of `relay_response` for one chunk. -/
def sniff (st : RelayState) (chunk : List Nat) : RelayState :=
  if !st.headers_complete && st.header_buffer.length + chunk.length < BUF_SIZE * 2 then
    let hb := st.header_buffer ++ chunk
    match strstr hb (bytes "\r\n\r\n") with
    | none => { st with header_buffer := hb }
    | some he =>
      let st := { st with header_buffer := hb, headers_complete := true }
      if !st.content_length_printed then
        match strcasestr_custom hb (bytes "Content-Length:") with
        | none => st
        | some cl =>
          if cl < he then
            let (n, content_length) := sscanf_Content_Length (hb.drop cl)
            if n == 1 then
              { st with content_length_printed := true,
                        log := st.log ++ [Event.body_length content_length] }
            else st
          else st
      else st
  else st

/-- The `while (1)` loop of `relay_response`; one unit of `fuel` per `recv`,
and `budget` calls of `send` allowed per chunk.  `none` when either ran out. -/
def relay_loop (budget : Nat) (client : Sender) :
    Nat → List Recv → RelayState → Option RelayState
  | 0, _, _ => none
  | fuel + 1, server, st =>
    match recv server BUF_SIZE with
    | (none, _) => some st
    | (some chunk, server) =>
      if chunk.length ≤ 0 then some st
      else
        let st := sniff st chunk
        match send_loop client Event.to_client chunk chunk.length budget 0 st.calls st.log with
        | none => none
        | some (false, calls, log) => some { st with calls := calls, log := log }
        | some (true, calls, log) =>
          relay_loop budget client fuel server { st with calls := calls, log := log }

/-- `relay_response` of `proxy.c`: the trace of what it wrote and printed. -/
def relay_response (fuel : Nat) (server : List Recv) (client : Sender) : Option (List Event) :=
  (relay_loop fuel client fuel server ⟨[], false, false, 0, []⟩).map (fun st => st.log)

/-- `connect_to_target` of `proxy.c`: splits `actual_host` at its first colon
into `hostname` and `port_str` (default `80`, at most 5 bytes), then resolves
and connects.  Name resolution and `connect` are the environment `dial`. -/
def connect_to_target (dial : List Nat → List Nat → Bool) (actual_host : List Nat) : Int × Event :=
  let hostname := (cstr actual_host).take 255
  let (hostname, port_str) :=
    match strchr hostname 58 with
    | some colon => (hostname.take colon, (hostname.drop (colon + 1)).take 5)
    | none => (hostname, bytes "80")
  let ok := dial hostname port_str
  (if ok then 0 else -1, Event.connect hostname port_str ok)

/-- Effect of `recv` storing `data` at `request + len`. -/
def write_at (request : List Nat) (len : Nat) (data : List Nat) : List Nat :=
  request.take len ++ data ++ request.drop (len + data.length)

/-- Result of `read_full_request`: the returned `ssize_t`, the contents of the
`request` array, and whether it closed the client socket. -/
structure ReadResult where
  ret : Int
  request : List Nat
  closed : Bool
deriving DecidableEq

/-- The loop `while (len < max_len - 1)` of `read_full_request`.  Every
iteration that continues adds at least one byte, so `max_len - 1` units of
`fuel` always reach the exit of the loop. -/
def read_loop (max_len : Nat) : Nat → List Recv → List Nat → Nat → ReadResult
  | 0, _, request, len => ⟨len, request, false⟩
  | fuel + 1, client, request, len =>
    if len < max_len - 1 then
      match recv client (max_len - len - 1) with
      | (none, _) => ⟨-1, request, true⟩
      | (some chunk, client) =>
        if chunk.length ≤ 0 then ⟨-1, request, true⟩
        else
          let request := write_at request len chunk
          let len := len + chunk.length
          if (memmem_custom request len (bytes "\r\n\r\n") 4).isSome then
            ⟨len, request, false⟩
          else read_loop max_len fuel client request len
    else ⟨len, request, false⟩

/-- `read_full_request` of `proxy.c`; `request` is the array as the caller
passes it (uninitialised stack memory in `handle_client`). -/
def read_full_request (client : List Recv) (request : List Nat) (max_len : Nat) : ReadResult :=
  read_loop max_len (max_len - 1) client request 0

/-- Everything outside `handle_client` that it interacts with. -/
structure Env where
  client_in : List Recv
  stack : List Nat
  dial : List Nat → List Nat → Bool
  server_send : Sender
  server_in : List Recv
  client_send : Sender

/-- The part of `handle_client` from the call of `parse_request` on:
`request` is the buffer after `request[request_len] = '\0'`, `log` the trace so
far.  `print_request_tail` only reads `request` and prints; it is left out. -/
def handle_client_tail (fuel : Nat) (env : Env) (request : List Nat) (request_len : Nat)
    (log : List Event) : Option (List Event) :=
  let p := parse_request request
  if p.ret == 0 then some (log ++ [Event.close_client])
  else
    let t := adjust_actual_host_uri p.host p.uri
    let log := log ++ [Event.getting (cstr p.host) t.print_uri]
    match connect_to_target env.dial t.actual_host with
    | (rc, e) =>
      if rc != 0 then some (log ++ [e, Event.close_client])
      else
        match forward_request_to_server fuel env.server_send request request_len with
        | none => none
        | some (rc, sent) =>
          if rc != 0 then some (log ++ [e] ++ sent ++ [Event.close_server, Event.close_client])
          else
            match relay_response fuel env.server_in env.client_send with
            | none => none
            | some relayed =>
              some (log ++ [e] ++ sent ++ relayed ++ [Event.close_server, Event.close_client])

/-- `handle_client` of `proxy.c`, as the trace of its observable actions
(`none` when `fuel` did not suffice for a send loop or the relay).  The
`ssize_t` result of `read_full_request` is stored in the `size_t request_len`,
i.e. reduced modulo `2 ^ 64`, before `request_len <= 0` is tested; a store
`request[request_len] = '\0'` outside the array leaves the array unchanged. -/
def handle_client (fuel : Nat) (env : Env) : Option (List Event) :=
  let r := read_full_request env.client_in env.stack (BUF_SIZE * 4)
  let request_len : Nat := (r.ret % 2 ^ 64).toNat
  let log := if r.closed then [Event.close_client] else []
  if request_len ≤ 0 then some log
  else handle_client_tail fuel env (r.request.set request_len 0) request_len log

/-- The value of the Host header as `parse_request` locates it: the bytes
after the colon of the first `Host:` token that follows the request line, up to
the next CR, LF or the end of the string, before any stripping of spaces and
tabs (`[]` when the request has no line ending or no such token). -/
def host_value (request : List Nat) : List Nat :=
  match strstr request (bytes "\r\n") with
  | none => []
  | some request_line_end =>
    let headers_start := (cstr request).drop (request_line_end + 2)
    match strcasestr_custom headers_start (bytes "Host:") with
    | none => []
    | some host_line =>
      match strchr (headers_start.drop host_line) 58 with
      | none => []
      | some colon =>
        ((headers_start.drop host_line).drop (colon + 1)).takeWhile
          (fun c => c != 0 && c != 13 && c != 10)

/-- A request line and a Host header followed by `a`s, `BUF_SIZE * 4 - 1` bytes
in all, with no blank line. -/
def full_request : List Nat :=
  bytes "GET / HTTP/1.1\r\nHost: a\r\n" ++ List.replicate 32742 97

/-- A client that delivers `full_request` in one read, an upstream that accepts
the connection, takes every byte offered and closes without answering. -/
def full_env : Env :=
  { client_in := [Recv.data full_request]
    stack := List.replicate 32768 0
    dial := fun _ _ => true
    server_send := fun _ n => (n : Int)
    server_in := []
    client_send := fun _ n => (n : Int) }


/-! ## C strings -/

theorem cstr_of_no_nul {l : List Nat} (h : 0 ∉ l) : cstr l = l := by
  unfold cstr
  rw [List.takeWhile_eq_self_iff]
  intro x hx
  have : x ≠ 0 := fun e => h (e ▸ hx)
  simpa using this

theorem nul_not_mem_cstr (l : List Nat) : 0 ∉ cstr l := by
  intro h
  have := List.mem_takeWhile_imp h
  simp at this

theorem findSub_skip (c : Nat) (n : List Nat) :
    ∀ (a b : List Nat), (∀ x ∈ a, x ≠ c) →
      findSub (c :: n) (a ++ c :: (n ++ b)) = some a.length := by
  intro a
  induction a with
  | nil =>
    intro b _
    simp [findSub, List.isPrefixOf_cons₂]
  | cons x a ih =>
    intro b hx
    have hxc : x ≠ c := hx x (by simp)
    have := ih b (fun y hy => hx y (by simp [hy]))
    simp [findSub, this, Ne.symm hxc]


theorem trim_trailing_self {h : List Nat} (h1 : h.getLast? ≠ some 32) (h2 : h.getLast? ≠ some 9) :
    trim_trailing h = h := by
  unfold trim_trailing
  rw [List.getLast?_eq_head?_reverse] at h1 h2
  cases hr : h.reverse with
  | nil => simpa using hr
  | cons c r =>
    rw [hr] at h1 h2
    simp at h1 h2
    rw [List.dropWhile_cons_of_neg (by simp [h1, h2]), ← hr, List.reverse_reverse]

theorem dropWhile_head_neg {q : Nat → Bool} {l : List Nat} (t : List Nat)
    (h : ∀ c, l.head? = some c → q c = false) (hne : l ≠ []) :
    (l ++ t).dropWhile q = l ++ t := by
  cases l with
  | nil => exact absurd rfl hne
  | cons c r =>
    have := h c rfl
    simp [List.dropWhile_cons, this]

/-- Amended C2: for every path `p` of 1 to 1023 bytes free of whitespace and
of NUL, and every host value `h` of 1 to 255 bytes with no CR, LF or NUL and no
leading or trailing space or tab, `parse_request` on
`GET p HTTP/1.1\r\nHost: h\r\n\r\n` returns 1 with `uri = p` and `host = h`. -/
theorem parse_request_well_formed (p h : List Nat)
    (hp_len : 1 ≤ p.length ∧ p.length ≤ 1023)
    (hp_ws : ∀ c ∈ p, isspace c = false)
    (hp_nul : 0 ∉ p)
    (hh_len : 1 ≤ h.length ∧ h.length ≤ 255)
    (hh : ∀ c ∈ h, c ≠ 13 ∧ c ≠ 10 ∧ c ≠ 0)
    (hh_lead : h.head? ≠ some 32 ∧ h.head? ≠ some 9)
    (hh_trail : h.getLast? ≠ some 32 ∧ h.getLast? ≠ some 9) :
    parse_request (bytes "GET " ++ p ++ bytes " HTTP/1.1\r\nHost: " ++ h ++ bytes "\r\n\r\n")
      = ⟨1, p, h⟩ := by
  have e1 : bytes "GET " = [71, 69, 84, 32] := by decide
  have e2 : bytes " HTTP/1.1\r\nHost: " =
      [32, 72, 84, 84, 80, 47, 49, 46, 49] ++ 13 :: 10 :: [72, 111, 115, 116, 58, 32] := by decide
  have e3 : bytes "\r\n\r\n" = [13, 10, 13, 10] := by decide
  have e4 : bytes "\r\n" = [13, 10] := by decide
  have e5 : bytes "Host:" = [72, 111, 115, 116, 58] := by decide
  have e6 : bytes "GET" = [71, 69, 84] := by decide
  have hpne : p ≠ [] := by intro e; simp [e] at hp_len
  have hhne : h ≠ [] := by intro e; simp [e] at hh_len
  have hh0 : 0 ∉ h := fun hm => (hh 0 hm).2.2 rfl
  -- the request, split at the end of the request line
  set a : List Nat := [71, 69, 84, 32] ++ p ++ [32, 72, 84, 84, 80, 47, 49, 46, 49] with ha
  set b : List Nat := [72, 111, 115, 116, 58, 32] ++ h ++ [13, 10, 13, 10] with hb
  have hreq : bytes "GET " ++ p ++ bytes " HTTP/1.1\r\nHost: " ++ h ++ bytes "\r\n\r\n"
      = a ++ [13, 10] ++ b := by
    simp [e1, e2, e3, ha, hb]
  have halen : a.length = p.length + 13 := by simp [ha]
  have hp13 : ∀ x ∈ p, x ≠ 13 := by
    intro x hx e
    have := hp_ws x hx
    simp [isspace, e] at this
  have ha13 : ∀ x ∈ a, x ≠ 13 := by
    intro x hx e
    subst e
    simp [ha] at hx
    exact hp13 13 hx rfl
  have hnul : 0 ∉ a ++ [13, 10] ++ b := by
    simp [ha, hb, hp_nul, hh0]
  have hb0 : 0 ∉ b := by simp [hb, hh0]
  rw [hreq]
  unfold parse_request
  have hstr : strstr (a ++ [13, 10] ++ b) (bytes "\r\n") = some (p.length + 13) := by
    unfold strstr
    rw [cstr_of_no_nul hnul, e4, cstr_of_no_nul (by decide)]
    have := findSub_skip 13 [10] a b ha13
    simp only [List.append_assoc, List.cons_append, List.nil_append] at this ⊢
    rw [this, halen]
  have hscan : sscanf_GET (a ++ [13, 10] ++ b) = (1, p) := by
    unfold sscanf_GET
    rw [cstr_of_no_nul hnul, e6]
    have : a ++ [13, 10] ++ b = 71 :: 69 :: 84 :: (32 :: (p ++ (32 :: ([72, 84, 84, 80, 47, 49, 46, 49] ++ [13, 10] ++ b)))) := by
      simp [ha]
    rw [this]
    simp only [scan_literal, beq_self_eq_true, if_true]
    rw [List.dropWhile_cons_of_pos (by decide)]
    rw [dropWhile_head_neg _ (fun c hc => hp_ws c (List.mem_of_mem_head? hc)) hpne]
    rw [List.takeWhile_append_of_pos (by intro x hx; simp [hp_ws x hx])]
    rw [List.takeWhile_cons_of_neg (by decide), List.append_nil, List.take_of_length_le hp_len.2]
    simp [hpne]
  rw [hstr, hscan]
  have hdrop : (cstr (a ++ [13, 10] ++ b)).drop (p.length + 13 + 2) = b := by
    rw [cstr_of_no_nul hnul, ← halen]
    have : a.length + 2 = (a ++ [13, 10]).length := by simp
    rw [this, List.drop_left]
  simp only [hdrop]
  have hcase : strcasestr_custom b (bytes "Host:") = some 0 := by
    rw [e5, hb]
    rfl
  have hchr : strchr (b.drop 0) 58 = some 4 := by
    unfold strchr
    rw [List.drop_zero, cstr_of_no_nul hb0, hb]
    rfl
  rw [hcase]
  simp only [hchr]
  have hhs : ((b.drop 0).drop (4 + 1)).dropWhile (fun c => c == 32 || c == 9)
      = h ++ [13, 10, 13, 10] := by
    have : (b.drop 0).drop (4 + 1) = 32 :: (h ++ [13, 10, 13, 10]) := by simp [hb]
    rw [this, List.dropWhile_cons_of_pos (by decide)]
    apply dropWhile_head_neg _ _ hhne
    intro c hc
    have h1 : c ≠ 32 := fun e => hh_lead.1 (e ▸ hc)
    have h2 : c ≠ 9 := fun e => hh_lead.2 (e ▸ hc)
    simp [h1, h2]
  simp only [hhs]
  have htw : (h ++ [13, 10, 13, 10]).takeWhile (fun c => c != 0 && c != 13 && c != 10) = h := by
    rw [List.takeWhile_append_of_pos]
    · simp
    · intro x hx
      have := hh x hx
      simp [this.1, this.2.1, this.2.2]
  rw [htw]
  have : ¬ h.length ≥ 256 := by omega
  simp only [this, if_false, List.take_left]
  have : ((1 : Int) != 1) = false := by decide
  simp only [this]
  rw [trim_trailing_self hh_trail.1 hh_trail.2]
  rfl


theorem findSub_none_of_not_mem (c : Nat) (n : List Nat) :
    ∀ l : List Nat, c ∉ l → findSub (c :: n) l = none := by
  intro l
  induction l with
  | nil => intro _; simp [findSub]
  | cons x l ih =>
    intro hx
    have hxc : ¬ c = x := fun e => hx (by simp [e])
    have := ih (fun hm => hx (by simp [hm]))
    simp [findSub, this, hxc]

theorem scan_literal_suffix : ∀ (lit s rest : List Nat),
    scan_literal lit s = .ok rest → rest <:+ s := by
  intro lit
  induction lit with
  | nil =>
    intro s rest h
    cases s <;> simp [scan_literal] at h <;> subst h <;> exact List.suffix_refl _
  | cons l ls ih =>
    intro s rest h
    cases s with
    | nil => simp [scan_literal] at h
    | cons c cs =>
      simp only [scan_literal] at h
      split at h
      · exact (ih cs rest h).trans (List.suffix_cons c cs)
      · simp at h

theorem scan_literal_error : ∀ (lit s : List Nat) (r : Int),
    scan_literal lit s = .error r → r ≠ 1 := by
  intro lit
  induction lit with
  | nil => intro s r h; cases s <;> simp [scan_literal] at h
  | cons l ls ih =>
    intro s r h
    cases s with
    | nil => simp [scan_literal] at h; subst h; decide
    | cons c cs =>
      simp only [scan_literal] at h
      split at h
      · exact ih cs r h
      · simp at h; subst h; decide

theorem sscanf_GET_spec (request : List Nat) :
    0 ∉ (sscanf_GET request).2 ∧ (sscanf_GET request).2.length ≤ 1023 ∧
    ((sscanf_GET request).1 = 1 → (sscanf_GET request).2 ≠ []) := by
  unfold sscanf_GET
  cases hs : scan_literal (bytes "GET") (cstr request) with
  | error r => simpa using scan_literal_error _ _ _ hs
  | ok rest =>
    simp only
    split
    · simp
    · rename_i hne
      refine ⟨?_, List.length_take_le _ _, fun _ => by simpa using hne⟩
      intro hm
      have h1 := List.mem_of_mem_take hm
      have h2 := (List.takeWhile_prefix _).subset h1
      have h3 := (List.dropWhile_suffix _).subset h2
      have h4 := (scan_literal_suffix _ _ _ hs).subset h3
      exact nul_not_mem_cstr _ h4

theorem trim_trailing_length_le (l : List Nat) : (trim_trailing l).length ≤ l.length := by
  unfold trim_trailing
  rw [List.length_reverse]
  calc (List.dropWhile _ l.reverse).length ≤ l.reverse.length :=
        (List.dropWhile_suffix _).length_le
    _ = l.length := List.length_reverse l

/-- The two shapes of a result of `parse_request`. -/
theorem parse_request_shape (request : List Nat) :
    ((parse_request request).ret = 0 ∧ (parse_request request).host = [] ∧
      ((parse_request request).uri = [] ∨ (parse_request request).uri = (sscanf_GET request).2)) ∨
    ((parse_request request).ret = 1 ∧ (sscanf_GET request).1 = 1 ∧
      (parse_request request).uri = (sscanf_GET request).2 ∧
      ∃ hs hlen, hlen ≤ 255 ∧ (parse_request request).host = trim_trailing (List.take hlen hs)) := by
  unfold parse_request
  cases strstr request (bytes "\r\n") with
  | none => simp
  | some rle =>
    rcases hg : sscanf_GET request with ⟨n, uri⟩
    simp only
    by_cases hn : n = 1
    · subst hn
      have : ((1 : Int) != 1) = false := by decide
      simp only [this, Bool.false_eq_true, if_false]
      cases strcasestr_custom (List.drop (rle + 2) (cstr request)) (bytes "Host:") with
      | none => simp
      | some host_line =>
        simp only
        cases strchr (List.drop host_line (List.drop (rle + 2) (cstr request))) 58 with
        | none => simp
        | some colon =>
          simp only
          refine Or.inr ⟨trivial, trivial, trivial, _, _, ?_, rfl⟩
          split <;> omega
    · have : (n != 1) = true := by simpa using hn
      simp only [this, if_true]
      simp

theorem parse_request_uri_spec (request : List Nat) :
    0 ∉ (parse_request request).uri ∧ (parse_request request).uri.length ≤ 1023 ∧
    ((parse_request request).ret = 1 → (parse_request request).uri ≠ []) := by
  have hs := sscanf_GET_spec request
  rcases parse_request_shape request with ⟨h0, _, hu | hu⟩ | ⟨h1, hn, hu, _⟩
  · rw [hu, h0]; simp
  · rw [hu, h0]; exact ⟨hs.1, hs.2.1, fun h => by simp at h⟩
  · rw [hu]; exact ⟨hs.1, hs.2.1, fun _ => hs.2.2 hn⟩

theorem parse_request_host_length (request : List Nat) :
    (parse_request request).host.length ≤ 255 := by
  rcases parse_request_shape request with ⟨_, hh, _⟩ | ⟨_, _, _, hs, hlen, hle, hh⟩
  · rw [hh]; simp
  · rw [hh]
    exact (trim_trailing_length_le _).trans ((List.length_take_le _ _).trans hle)

theorem trim_trailing_eq_nil_iff (l : List Nat) :
    trim_trailing l = [] ↔ ∀ c ∈ l, (c == 32 || c == 9) = true := by
  unfold trim_trailing
  rw [List.reverse_eq_nil_iff, List.dropWhile_eq_nil_iff]
  simp only [List.mem_reverse]

/-- The host that `parse_request` stores, computed from the bytes `raw` after
the colon, is empty exactly when the value cut from `raw` is blank. -/
theorem stored_host_eq_nil_iff (raw : List Nat) :
    trim_trailing
        ((raw.dropWhile (fun c => c == 32 || c == 9)).take
          (if ((raw.dropWhile (fun c => c == 32 || c == 9)).takeWhile
                (fun c => c != 0 && c != 13 && c != 10)).length ≥ 256 then 255
           else ((raw.dropWhile (fun c => c == 32 || c == 9)).takeWhile
                (fun c => c != 0 && c != 13 && c != 10)).length)) = [] ↔
      ∀ c ∈ raw.takeWhile (fun c => c != 0 && c != 13 && c != 10), c = 32 ∨ c = 9 := by
  have hsplit := List.takeWhile_append_dropWhile (fun c => c == 32 || c == 9) raw
  have hws : ∀ x ∈ raw.takeWhile (fun c => c == 32 || c == 9), x = 32 ∨ x = 9 := by
    intro x hx
    simpa using List.mem_takeWhile_imp hx
  have hwsnt : ∀ x ∈ raw.takeWhile (fun c => c == 32 || c == 9),
      (fun c => c != 0 && c != 13 && c != 10) x = true := by
    intro x hx
    rcases hws x hx with rfl | rfl <;> decide
  have hval : raw.takeWhile (fun c => c != 0 && c != 13 && c != 10)
      = raw.takeWhile (fun c => c == 32 || c == 9)
        ++ (raw.dropWhile (fun c => c == 32 || c == 9)).takeWhile
            (fun c => c != 0 && c != 13 && c != 10) := by
    conv_lhs => rw [← hsplit]
    exact List.takeWhile_append_of_pos hwsnt
  rw [hval]
  cases hhs : raw.dropWhile (fun c => c == 32 || c == 9) with
  | nil =>
    constructor
    · intro _ c hc
      rw [List.takeWhile_nil, List.append_nil] at hc
      exact hws c hc
    · intro _
      simp [trim_trailing]
  | cons c rest =>
    have hc : ¬ ((c == 32 || c == 9) = true) := by
      have := List.head_dropWhile_not (fun c => c == 32 || c == 9) raw (by rw [hhs]; simp)
      simp only [hhs, List.head_cons] at this
      rw [this]; simp
    by_cases hnt : (c != 0 && c != 13 && c != 10) = true
    · have htw : (c :: rest).takeWhile (fun c => c != 0 && c != 13 && c != 10)
          = c :: rest.takeWhile (fun c => c != 0 && c != 13 && c != 10) :=
        @List.takeWhile_cons_of_pos _ (fun c => c != 0 && c != 13 && c != 10) c rest hnt
      rw [htw]
      constructor
      · intro h
        exfalso
        rw [trim_trailing_eq_nil_iff] at h
        apply hc
        apply h c
        have hm : ∃ k, (if (c :: rest.takeWhile (fun c => c != 0 && c != 13 && c != 10)).length
            ≥ 256 then 255
            else (c :: rest.takeWhile (fun c => c != 0 && c != 13 && c != 10)).length) = k + 1 := by
          split
          · exact ⟨254, rfl⟩
          · exact ⟨_, List.length_cons _ _⟩
        obtain ⟨k, hk⟩ := hm
        rw [hk]
        simp
      · intro h
        exfalso
        apply hc
        have := h c (by simp)
        simpa using this
    · have htw : (c :: rest).takeWhile (fun c => c != 0 && c != 13 && c != 10) = [] :=
        @List.takeWhile_cons_of_neg _ (fun c => c != 0 && c != 13 && c != 10) c rest hnt
      rw [htw]
      constructor
      · intro _ x hx
        rw [List.append_nil] at hx
        exact hws x hx
      · intro _
        simp [trim_trailing]

theorem parse_request_host_value (request : List Nat) :
    (parse_request request).ret = 1 →
    ((parse_request request).host = [] ↔ ∀ c ∈ host_value request, c = 32 ∨ c = 9) := by
  unfold parse_request host_value
  cases strstr request (bytes "\r\n") with
  | none => simp
  | some rle =>
    rcases hg : sscanf_GET request with ⟨n, uri⟩
    simp only
    by_cases hn : n = 1
    · subst hn
      have h11 : ((1 : Int) != 1) = false := by decide
      simp only [h11, Bool.false_eq_true, if_false]
      cases strcasestr_custom (List.drop (rle + 2) (cstr request)) (bytes "Host:") with
      | none => simp
      | some host_line =>
        simp only
        cases strchr (List.drop host_line (List.drop (rle + 2) (cstr request))) 58 with
        | none => simp
        | some colon =>
          simp only
          intro _
          exact stored_host_eq_nil_iff _
    · have : (n != 1) = true := by simpa using hn
      simp [this]

/-- Amended C10: on every request that `parse_request` accepts, `uri` has
between 1 and 1023 bytes and `host` has between 0 and 255 bytes; `host` is
empty exactly when the Host header's value (the bytes after the colon up to
the next CR, LF or end of the request) is empty or only spaces and tabs. -/
theorem parse_request_field_lengths (request : List Nat)
    (hok : (parse_request request).ret = 1) :
    1 ≤ (parse_request request).uri.length ∧ (parse_request request).uri.length ≤ 1023 ∧
    (parse_request request).host.length ≤ 255 ∧
    ((parse_request request).host = [] ↔ ∀ c ∈ host_value request, c = 32 ∨ c = 9) := by
  have hu := parse_request_uri_spec request
  refine ⟨?_, hu.2.1, parse_request_host_length request, parse_request_host_value request hok⟩
  exact List.length_pos.mpr (hu.2.2 hok)

/-! ## Target resolution -/

theorem findSub_single_some (c : Nat) : ∀ (l : List Nat) (i : Nat),
    findSub [c] l = some i → l = l.take i ++ c :: l.drop (i + 1) ∧ c ∉ l.take i := by
  intro l
  induction l with
  | nil => intro i h; simp [findSub] at h
  | cons x l ih =>
    intro i h
    by_cases hx : c = x
    · subst hx
      simp [findSub] at h
      subst h
      simp
    · simp [findSub, hx] at h
      obtain ⟨j, hj, rfl⟩ := h
      have := ih j hj
      refine ⟨?_, ?_⟩
      · simp only [List.take_succ_cons, List.drop_succ_cons, List.cons_append]
        rw [← this.1]
      · simp only [List.take_succ_cons, List.mem_cons, not_or]
        exact ⟨hx, this.2⟩

theorem adjust_absolute (host rest : List Nat) (hrest : 0 ∉ rest) :
    adjust_actual_host_uri host (bytes "http://" ++ rest) =
      match findSub [47] rest with
      | some uhe =>
        if uhe < 256 then ⟨rest.take uhe, rest.drop uhe, bytes "http://" ++ rest⟩
        else ⟨cstr host, bytes "http://" ++ rest, bytes "http://" ++ rest⟩
      | none => ⟨cstr host, bytes "/", bytes "http://" ++ rest⟩ := by
  have e : bytes "http://" = [104, 116, 116, 112, 58, 47, 47] := by decide
  have huri : 0 ∉ bytes "http://" ++ rest := by simp [e, hrest]
  have hcmp : strncmp_eq (bytes "http://" ++ rest) (bytes "http://") 7 = true := by
    rw [e]; rfl
  have hdrop : (bytes "http://" ++ rest).drop 7 = rest := by rw [e]; rfl
  unfold adjust_actual_host_uri
  simp only [hcmp, if_true, cstr_of_no_nul huri, hdrop]
  unfold strchr
  rw [cstr_of_no_nul hrest]

/-- Amended C3: for a uri `http://` followed by `rest` (host and uri being C
strings that fit their buffers), `print_uri` is the uri unchanged; when `rest`
is `h` followed by a first `/` and a path and `h` is shorter than 256 bytes,
`actual_host` is `h` and `actual_uri` is the remainder from that `/`; when
`rest` has no `/`, `actual_uri` is `/`. -/
theorem adjust_absolute_form (host rest : List Nat)
    (hhost : 0 ∉ host ∧ host.length ≤ 255)
    (hrest : 0 ∉ rest ∧ (bytes "http://" ++ rest).length ≤ 1023) :
    (adjust_actual_host_uri host (bytes "http://" ++ rest)).print_uri = bytes "http://" ++ rest ∧
    (∀ h path, rest = h ++ 47 :: path → 47 ∉ h → h.length < 256 →
      (adjust_actual_host_uri host (bytes "http://" ++ rest)).actual_host = h ∧
      (adjust_actual_host_uri host (bytes "http://" ++ rest)).actual_uri = 47 :: path) ∧
    (47 ∉ rest →
      (adjust_actual_host_uri host (bytes "http://" ++ rest)).actual_uri = bytes "/") := by
  rw [adjust_absolute host rest hrest.1]
  refine ⟨?_, ?_, ?_⟩
  · cases findSub [47] rest with
    | none => rfl
    | some uhe => simp only; split <;> rfl
  · intro h path hr hh hlen
    have hf := findSub_skip 47 [] h path (fun x hx e => hh (e ▸ hx))
    rw [List.nil_append, ← hr] at hf
    rw [hf]
    simp only [hlen, if_true]
    subst hr
    exact ⟨List.take_left _ _, List.drop_left _ _⟩
  · intro hno
    rw [findSub_none_of_not_mem 47 [] rest hno]

/-- For C3: at the instance of the claim `uri = http://example.com:8080/a/b`,
`Host = ignored.example`. -/
theorem adjust_absolute_form_witness :
    (adjust_actual_host_uri (bytes "ignored.example")
        (bytes "http://" ++ bytes "example.com:8080/a/b")).print_uri
      = bytes "http://" ++ bytes "example.com:8080/a/b" ∧
    (adjust_actual_host_uri (bytes "ignored.example")
        (bytes "http://" ++ bytes "example.com:8080/a/b")).actual_host = bytes "example.com:8080" ∧
    (adjust_actual_host_uri (bytes "ignored.example")
        (bytes "http://" ++ bytes "example.com:8080/a/b")).actual_uri = 47 :: bytes "a/b" :=
  have h := adjust_absolute_form (bytes "ignored.example") (bytes "example.com:8080/a/b")
    (by decide) (by decide)
  ⟨h.1, h.2.1 (bytes "example.com:8080") (bytes "a/b") (by decide) (by decide) (by decide)⟩

/-- Refutation of C3 as stated: with no `/` after the host, and with an
embedded host of 256 bytes, `actual_host` is the Host header value, not the
host embedded in the uri. -/
theorem adjust_keeps_host_header :
    (adjust_actual_host_uri (bytes "ignored.example") (bytes "http://example.com")).actual_host
      = bytes "ignored.example" ∧
    (adjust_actual_host_uri (bytes "ignored.example")
        (bytes "http://" ++ List.replicate 256 97 ++ bytes "/a/b")).actual_host
      = bytes "ignored.example" ∧
    (adjust_actual_host_uri (bytes "ignored.example")
        (bytes "http://" ++ List.replicate 256 97 ++ bytes "/a/b")).actual_uri
      = bytes "http://" ++ List.replicate 256 97 ++ bytes "/a/b" := by
  decide

/-- Amended C9: for every request that `parse_request` accepts and whose uri
begins with `/`, or begins with `http://` with the next `/` (if any) less than
256 bytes after that, the `actual_uri` computed by `adjust_actual_host_uri`
begins with `/`. -/
theorem actual_uri_begins_with_slash (request : List Nat)
    (hok : (parse_request request).ret = 1)
    (hform : (parse_request request).uri.head? = some 47 ∨
      ∃ rest, (parse_request request).uri = bytes "http://" ++ rest ∧
        ∀ h path, rest = h ++ 47 :: path → 47 ∉ h → h.length < 256) :
    (adjust_actual_host_uri (parse_request request).host
      (parse_request request).uri).actual_uri.head? = some 47 := by
  have hu := (parse_request_uri_spec request).1
  rcases hform with hslash | ⟨rest, hrest, hshort⟩
  · cases huri : (parse_request request).uri with
    | nil => rw [huri] at hslash; simp at hslash
    | cons c cs =>
      rw [huri] at hslash hu
      simp at hslash
      subst hslash
      unfold adjust_actual_host_uri
      have : strncmp_eq (47 :: cs) (bytes "http://") 7 = false := by rfl
      simp only [this, Bool.false_eq_true, if_false, cstr_of_no_nul hu]
      rfl
  · rw [hrest] at hu ⊢
    have hr0 : 0 ∉ rest := fun hm => hu (List.mem_append_right _ hm)
    rw [adjust_absolute _ rest hr0]
    cases hf : findSub [47] rest with
    | none => rfl
    | some uhe =>
      have hs := findSub_single_some 47 rest uhe hf
      have hlt := hshort _ _ hs.1 hs.2
      have hle : uhe ≤ rest.length := by
        by_contra hc
        have h1 : rest.take uhe = rest := List.take_of_length_le (by omega)
        have h2 : rest.drop (uhe + 1) = [] := List.drop_of_length_le (by omega)
        have h3 := hs.1
        rw [h1, h2] at h3
        have := congrArg List.length h3
        simp at this
      rw [List.length_take, Nat.min_eq_left hle] at hlt
      simp only [hlt, if_true]
      have : rest.drop uhe = 47 :: rest.drop (uhe + 1) := by
        have h3 := congrArg (List.drop uhe) hs.1
        rw [List.drop_append_of_le_length (by simp [hle])] at h3
        simpa [List.drop_take] using h3
      rw [this]
      rfl


/-! ## Relaying -/

theorem client_bytes_append (a b : List Event) :
    client_bytes (a ++ b) = client_bytes a ++ client_bytes b := by
  induction a with
  | nil => rfl
  | cons e a ih => cases e <;> simp [client_bytes, ih]

theorem server_bytes_append (a b : List Event) :
    server_bytes (a ++ b) = server_bytes a ++ server_bytes b := by
  induction a with
  | nil => rfl
  | cons e a ih => cases e <;> simp [server_bytes, ih]

/-- A send loop whose peer accepts at least one byte per call transmits the
rest of the buffer, given one unit of fuel per outstanding byte. -/
theorem send_loop_all (peer : Sender) (mk : List Nat → Event) (proj : List Event → List Nat)
    (hproj : ∀ log d, proj (log ++ [mk d]) = proj log ++ d)
    (hpeer : ∀ i n, 0 < n → 1 ≤ peer i n) (buf : List Nat) :
    ∀ (fuel sent_total calls : Nat) (log : List Event), buf.length - sent_total ≤ fuel →
      ∃ calls2 log2, send_loop peer mk buf buf.length fuel sent_total calls log
          = some (true, calls2, log2) ∧ proj log2 = proj log ++ buf.drop sent_total := by
  intro fuel
  induction fuel with
  | zero =>
    intro st calls log hf
    have hge : ¬ st < buf.length := by omega
    refine ⟨calls, log, by simp [send_loop, hge], ?_⟩
    rw [List.drop_of_length_le (by omega), List.append_nil]
  | succ fuel ih =>
    intro st calls log hf
    by_cases hlt : st < buf.length
    · have h1 := hpeer calls (buf.length - st) (by omega)
      have hneg : ¬ peer calls (buf.length - st) < 0 := by omega
      have hk : 1 ≤ (peer calls (buf.length - st)).toNat := by omega
      obtain ⟨calls2, log2, hrun, hout⟩ :=
        ih (st + (peer calls (buf.length - st)).toNat) (calls + 1)
          (log ++ [mk ((buf.drop st).take (peer calls (buf.length - st)).toNat)]) (by omega)
      refine ⟨calls2, log2, ?_, ?_⟩
      · simp only [send_loop, hlt, if_true, hneg, if_false]
        exact hrun
      · rw [hout, hproj, List.append_assoc, ← List.drop_drop, List.take_append_drop]
    · refine ⟨calls, log, by simp [send_loop, hlt], ?_⟩
      rw [List.drop_of_length_le (by omega), List.append_nil]

theorem sniff_client_bytes (st : RelayState) (chunk : List Nat) :
    client_bytes (sniff st chunk).log = client_bytes st.log := by
  unfold sniff
  dsimp only
  repeat' split
  all_goals simp [client_bytes_append, client_bytes]

theorem relay_loop_all (budget : Nat) (client : Sender)
    (hclient : ∀ i n, 0 < n → 1 ≤ client i n) (hbudget : BUF_SIZE ≤ budget) :
    ∀ (chunks : List (List Nat)) (fuel : Nat) (st : RelayState),
      (∀ c ∈ chunks, c ≠ [] ∧ c.length ≤ BUF_SIZE) → chunks.length < fuel →
      ∃ st2, relay_loop budget client fuel (chunks.map Recv.data ++ [Recv.data []]) st = some st2 ∧
        client_bytes st2.log = client_bytes st.log ++ chunks.flatten := by
  intro chunks
  induction chunks with
  | nil =>
    intro fuel st _ hf
    obtain ⟨f, rfl⟩ : ∃ f, fuel = f + 1 := ⟨fuel - 1, by simp at hf; omega⟩
    exact ⟨st, by simp [relay_loop, recv], by simp⟩
  | cons c cs ih =>
    intro fuel st hc hf
    obtain ⟨f, rfl⟩ : ∃ f, fuel = f + 1 := ⟨fuel - 1, by simp at hf; omega⟩
    have hc1 := hc c (by simp)
    have hpos : ¬ c.length ≤ 0 := by
      have := List.length_pos.mpr hc1.1
      omega
    obtain ⟨calls2, log2, hrun, hout⟩ :=
      send_loop_all client Event.to_client client_bytes
        (fun log d => by simp [client_bytes_append, client_bytes]) hclient c
        budget 0 (sniff st c).calls (sniff st c).log (by omega)
    obtain ⟨st2, hrel, hbytes⟩ :=
      ih f { sniff st c with calls := calls2, log := log2 }
        (fun x hx => hc x (by simp [hx])) (by simp at hf; omega)
    refine ⟨st2, ?_, ?_⟩
    · simp only [List.map_cons, List.cons_append, relay_loop, recv, hc1.2, if_true, hpos,
        if_false, hrun]
      exact hrel
    · rw [hbytes]
      simp only [hout, sniff_client_bytes, List.drop_zero, List.flatten_cons, List.append_assoc]

/-- C1: when upstream delivers the non-empty chunks `chunks` (each at most
`BUF_SIZE` bytes) and then closes, and every `send` to the client accepts at
least one byte, `relay_response` returns having written to the client exactly
the concatenation of the chunks; so any other chunking of the same bytes,
to any other such client, yields the same client byte stream. -/
theorem relay_response_relays_concatenation (chunks : List (List Nat)) (client : Sender)
    (fuel : Nat)
    (hchunks : ∀ c ∈ chunks, c ≠ [] ∧ c.length ≤ BUF_SIZE)
    (hclient : ∀ i n, 0 < n → 1 ≤ client i n)
    (hfuel : BUF_SIZE ≤ fuel ∧ chunks.length < fuel) :
    (∃ log, relay_response fuel (chunks.map Recv.data ++ [Recv.data []]) client = some log ∧
      client_bytes log = chunks.flatten) ∧
    ∀ (chunks2 : List (List Nat)) (client2 : Sender) (fuel2 : Nat),
      (∀ c ∈ chunks2, c ≠ [] ∧ c.length ≤ BUF_SIZE) → (∀ i n, 0 < n → 1 ≤ client2 i n) →
      BUF_SIZE ≤ fuel2 ∧ chunks2.length < fuel2 → chunks2.flatten = chunks.flatten →
      ∃ log log2, relay_response fuel (chunks.map Recv.data ++ [Recv.data []]) client = some log ∧
        relay_response fuel2 (chunks2.map Recv.data ++ [Recv.data []]) client2 = some log2 ∧
        client_bytes log2 = client_bytes log := by
  have key : ∀ (chunks : List (List Nat)) (client : Sender) (fuel : Nat),
      (∀ c ∈ chunks, c ≠ [] ∧ c.length ≤ BUF_SIZE) → (∀ i n, 0 < n → 1 ≤ client i n) →
      BUF_SIZE ≤ fuel ∧ chunks.length < fuel →
      ∃ log, relay_response fuel (chunks.map Recv.data ++ [Recv.data []]) client = some log ∧
        client_bytes log = chunks.flatten := by
    intro chunks client fuel hchunks hclient hfuel
    obtain ⟨st2, hrel, hbytes⟩ :=
      relay_loop_all fuel client hclient hfuel.1 chunks fuel ⟨[], false, false, 0, []⟩
        hchunks hfuel.2
    exact ⟨st2.log, by simp [relay_response, hrel], by simpa [client_bytes] using hbytes⟩
  refine ⟨key chunks client fuel hchunks hclient hfuel, ?_⟩
  intro chunks2 client2 fuel2 hchunks2 hclient2 hfuel2 hsame
  obtain ⟨log, h1, h2⟩ := key chunks client fuel hchunks hclient hfuel
  obtain ⟨log2, h3, h4⟩ := key chunks2 client2 fuel2 hchunks2 hclient2 hfuel2
  exact ⟨log, log2, h1, h3, by rw [h4, h2, hsame]⟩

/-- For C1: a response delivered as two chunks, the header block and the
body, to a client that accepts at most 3 bytes per `send`. -/
theorem relay_response_relays_concatenation_witness :
    ∃ log, relay_response BUF_SIZE
        ([bytes "HTTP/1.1 200 OK\r\nContent-Length: 5\r\n\r\n", bytes "hello"].map Recv.data
          ++ [Recv.data []])
        (fun _ n => ((min n 3 : Nat) : Int)) = some log ∧
      client_bytes log
        = [bytes "HTTP/1.1 200 OK\r\nContent-Length: 5\r\n\r\n", bytes "hello"].flatten :=
  (relay_response_relays_concatenation
    [bytes "HTTP/1.1 200 OK\r\nContent-Length: 5\r\n\r\n", bytes "hello"]
    (fun _ n => ((min n 3 : Nat) : Int)) BUF_SIZE (by decide)
    (fun _ n hn => by
      show (1 : Int) ≤ ((min n 3 : Nat) : Int)
      have : 1 ≤ min n 3 := by omega
      exact_mod_cast this)
    (by decide)).1


/-! ## Request framing -/

theorem cstr_append_nul_any (l t : List Nat) : cstr (l ++ 0 :: t) = cstr l := by
  unfold cstr
  induction l with
  | nil => simp
  | cons x l ih =>
    by_cases hx : x = 0
    · subst hx; simp
    · have : (x != 0) = true := by simpa using hx
      simp only [List.cons_append, List.takeWhile_cons, this, if_true, ih]

theorem parse_request_congr {r1 r2 : List Nat} (h : cstr r1 = cstr r2) :
    parse_request r1 = parse_request r2 := by
  simp only [parse_request, strstr, sscanf_GET, h]

theorem memmem_loop_none (n : List Nat) (k : Nat) :
    ∀ (count : Nat) (h : List Nat) (i : Nat),
      (∀ j, j < count → (h.drop j).take k ≠ n.take k) → memmem_loop n k count h i = none := by
  intro count
  induction count with
  | zero => intro h i _; rfl
  | succ count ih =>
    intro h i hno
    have h0 := hno 0 (by omega)
    have hcmp : memcmp_eq h n k = false := by
      unfold memcmp_eq
      simpa using h0
    simp only [memmem_loop, hcmp, Bool.false_eq_true, if_false]
    apply ih
    intro j hj
    have := hno (j + 1) (by omega)
    rwa [List.drop_tail] 

theorem memmem_custom_none (request needle : List Nat) (len : Nat)
    (hno : ¬ needle <:+: request.take len) :
    memmem_custom request len needle needle.length = none := by
  unfold memmem_custom
  split
  · rename_i h0
    have : needle = [] := by simpa using h0
    exact absurd (this ▸ List.nil_infix) hno
  · split
    · rfl
    · rename_i hlen
      apply memmem_loop_none
      intro j hj heq
      apply hno
      rw [List.take_length] at heq
      have hsplit : len = j + (needle.length + (len - j - needle.length)) := by omega
      rw [hsplit, List.take_add, List.take_add, heq]
      exact List.infix_append' _ _ _

theorem read_loop_fill (max_len : Nat) (more : List Recv) :
    ∀ (chunks : List (List Nat)) (fuel : Nat) (pre tail : List Nat),
      (∀ c ∈ chunks, c ≠ []) →
      pre.length + chunks.flatten.length = max_len - 1 →
      ¬ bytes "\r\n\r\n" <:+: pre ++ chunks.flatten →
      chunks.flatten.length ≤ fuel →
      read_loop max_len fuel (chunks.map Recv.data ++ more) (pre ++ tail) pre.length
        = ⟨((max_len - 1 : Nat) : Int), pre ++ chunks.flatten ++ tail.drop chunks.flatten.length,
            false⟩ := by
  intro chunks
  induction chunks with
  | nil =>
    intro fuel pre tail _ hlen _ _
    simp at hlen
    cases fuel with
    | zero => simp [read_loop, hlen]
    | succ f => simp [read_loop, hlen]
  | cons c cs ih =>
    intro fuel pre tail hne hlen hno hfuel
    have hc : c ≠ [] := hne c (by simp)
    have hcpos : 0 < c.length := List.length_pos.mpr hc
    simp only [List.flatten_cons, List.length_append] at hlen hfuel
    obtain ⟨f, rfl⟩ : ∃ f, fuel = f + 1 := ⟨fuel - 1, by omega⟩
    have hlt : pre.length < max_len - 1 := by omega
    have hfit : c.length ≤ max_len - pre.length - 1 := by omega
    have hpos : ¬ c.length ≤ 0 := by omega
    have hw : write_at (pre ++ tail) pre.length c = (pre ++ c) ++ tail.drop c.length := by
      unfold write_at
      rw [List.take_left, List.drop_append]
    have hno1 : ¬ bytes "\r\n\r\n" <:+: ((pre ++ c) ++ tail.drop c.length).take (pre.length + c.length) := by
      have : ((pre ++ c) ++ tail.drop c.length).take (pre.length + c.length) = pre ++ c := by
        rw [← List.length_append, List.take_left]
      rw [this]
      intro hin
      apply hno
      rw [List.flatten_cons, ← List.append_assoc]
      exact hin.trans (List.prefix_append _ _).isInfix
    have hmem := memmem_custom_none _ _ _ hno1
    have e4 : (bytes "\r\n\r\n").length = 4 := by decide
    rw [e4] at hmem
    have hih := ih f (pre ++ c) (tail.drop c.length) (fun x hx => hne x (by simp [hx]))
      (by rw [List.length_append]; omega)
      (by rw [List.flatten_cons, ← List.append_assoc] at hno; exact hno)
      (by omega)
    simp only [List.map_cons, List.cons_append, read_loop, hlt, if_true, recv, hfit, hpos,
      if_false, hw, hmem, Option.isSome_none, Bool.false_eq_true]
    rw [List.length_append] at hih
    rw [hih]
    simp [List.drop_drop, Nat.add_comm]


theorem read_full_request_fill (chunks : List (List Nat)) (more : List Recv) (stack : List Nat)
    (hne : ∀ c ∈ chunks, c ≠ [])
    (hlen : chunks.flatten.length = BUF_SIZE * 4 - 1)
    (hno : ¬ bytes "\r\n\r\n" <:+: chunks.flatten) :
    read_full_request (chunks.map Recv.data ++ more) stack (BUF_SIZE * 4)
      = ⟨((BUF_SIZE * 4 - 1 : Nat) : Int),
          chunks.flatten ++ stack.drop (BUF_SIZE * 4 - 1), false⟩ := by
  have h := read_loop_fill (BUF_SIZE * 4) more chunks (BUF_SIZE * 4 - 1) [] stack hne
    (by simpa using hlen) (by simpa using hno) (by omega)
  unfold read_full_request
  simp only [List.nil_append, List.length_nil] at h
  rw [h, hlen]

theorem handle_client_fill (fuel : Nat) (env : Env) (chunks : List (List Nat))
    (more : List Recv)
    (hin : env.client_in = chunks.map Recv.data ++ more)
    (hne : ∀ c ∈ chunks, c ≠ [])
    (hlen : chunks.flatten.length = BUF_SIZE * 4 - 1)
    (hno : ¬ bytes "\r\n\r\n" <:+: chunks.flatten)
    (hstack : env.stack.length = BUF_SIZE * 4) :
    handle_client fuel env
      = handle_client_tail fuel env (chunks.flatten ++ [0]) (BUF_SIZE * 4 - 1) [] := by
  unfold handle_client
  rw [hin, read_full_request_fill chunks more env.stack hne hlen hno]
  have hl : ((((BUF_SIZE * 4 - 1 : Nat) : Int)) % 2 ^ 64).toNat = BUF_SIZE * 4 - 1 := by decide
  have h1 : (env.stack.drop (BUF_SIZE * 4 - 1)).length = 1 := by
    rw [List.length_drop, hstack]; decide
  obtain ⟨x, hx⟩ := List.length_eq_one.mp h1
  have hpos : ¬ BUF_SIZE * 4 - 1 ≤ 0 := by decide
  simp only [hl, hpos, if_false, hx, Bool.false_eq_true]
  rw [List.set_append_right _ _ (by omega), hlen]
  simp


/-- A send loop whose peer accepts between one and all of the bytes offered
transmits `buf[sent_total .. bytes)`. -/
theorem send_loop_upto (peer : Sender) (mk : List Nat → Event) (proj : List Event → List Nat)
    (hproj : ∀ log d, proj (log ++ [mk d]) = proj log ++ d)
    (hpeer : ∀ i n, 0 < n → 1 ≤ peer i n ∧ peer i n ≤ n) (buf : List Nat) (bytes : Nat) :
    ∀ (fuel sent_total calls : Nat) (log : List Event), bytes - sent_total ≤ fuel →
      ∃ calls2 log2, send_loop peer mk buf bytes fuel sent_total calls log
          = some (true, calls2, log2) ∧
        proj log2 = proj log ++ (buf.take bytes).drop sent_total := by
  intro fuel
  induction fuel with
  | zero =>
    intro st calls log hf
    have hge : ¬ st < bytes := by omega
    refine ⟨calls, log, by simp [send_loop, hge], ?_⟩
    rw [List.drop_of_length_le (by rw [List.length_take]; omega), List.append_nil]
  | succ fuel ih =>
    intro st calls log hf
    by_cases hlt : st < bytes
    · have h1 := hpeer calls (bytes - st) (by omega)
      have hneg : ¬ peer calls (bytes - st) < 0 := by omega
      have hk : 1 ≤ (peer calls (bytes - st)).toNat := by omega
      have hk2 : (peer calls (bytes - st)).toNat ≤ bytes - st := by omega
      obtain ⟨calls2, log2, hrun, hout⟩ :=
        ih (st + (peer calls (bytes - st)).toNat) (calls + 1)
          (log ++ [mk ((buf.drop st).take (peer calls (bytes - st)).toNat)]) (by omega)
      refine ⟨calls2, log2, ?_, ?_⟩
      · simp only [send_loop, hlt, if_true, hneg, if_false]
        exact hrun
      · rw [hout, hproj, List.append_assoc]
        congr 1
        rw [List.drop_take, List.drop_take, ← List.drop_drop]
        have : bytes - st = (peer calls (bytes - st)).toNat
            + (bytes - (st + (peer calls (bytes - st)).toNat)) := by omega
        conv_rhs => rw [this, List.take_add]
    · refine ⟨calls, log, by simp [send_loop, hlt], ?_⟩
      rw [List.drop_of_length_le (by rw [List.length_take]; omega), List.append_nil]

theorem infix_of_infix_concat {n l : List Nat} {x : Nat} (h : n <:+: l ++ [x])
    (hx : x ∉ n) (hn : n ≠ []) : n <:+: l := by
  obtain ⟨s, t, e⟩ := h
  rcases List.eq_nil_or_concat t with rfl | ⟨t2, y, rfl⟩
  · rcases List.eq_nil_or_concat n with rfl | ⟨n2, z, rfl⟩
    · exact absurd rfl hn
    · rw [List.append_nil, List.concat_eq_append, ← List.append_assoc] at e
      have := (List.append_inj' e rfl).2
      simp at this
      subst this
      exact absurd (by simp) hx
  · rw [List.concat_eq_append, ← List.append_assoc] at e
    have := (List.append_inj' e rfl).1
    exact ⟨s, t2, this⟩

theorem infix_of_infix_append_replicate {n a : List Nat} {x : Nat} (hx : x ∉ n) (hn : n ≠ []) :
    ∀ k : Nat, n <:+: a ++ List.replicate k x → n <:+: a := by
  intro k
  induction k with
  | zero => intro h; simpa using h
  | succ k ih =>
    intro h
    rw [List.replicate_succ', ← List.append_assoc] at h
    exact ih (infix_of_infix_concat h hx hn)

theorem full_request_length : full_request.length = BUF_SIZE * 4 - 1 := by
  unfold full_request
  rw [List.length_append, List.length_replicate]
  decide

theorem full_request_no_blank_line : ¬ bytes "\r\n\r\n" <:+: full_request := by
  intro h
  have h2 : bytes "\r\n\r\n" <:+: bytes "GET / HTTP/1.1\r\nHost: a\r\n" :=
    infix_of_infix_append_replicate (by decide) (by decide) _ h
  exact absurd h2 (by decide)

/-- Amended C4: when the client's bytes fill the request buffer
(`BUF_SIZE * 4 - 1` bytes) with no `\r\n\r\n` among them, `read_full_request`
returns `BUF_SIZE * 4 - 1`, not a failure, and `handle_client` parses the
buffered bytes.  If `parse_request` rejects them, it closes the client
connection and nothing else happens.  If `parse_request` accepts them, it
connects to the resolved target: on failure it closes the client connection;
on success, with an upstream that takes at least one byte per `send`, it
forwards exactly the buffered bytes upstream and goes on to relay. -/
theorem handle_client_buffer_full (fuel : Nat) (env : Env) (chunks : List (List Nat))
    (more : List Recv)
    (hin : env.client_in = chunks.map Recv.data ++ more)
    (hne : ∀ c ∈ chunks, c ≠ [])
    (hlen : chunks.flatten.length = BUF_SIZE * 4 - 1)
    (hno : ¬ bytes "\r\n\r\n" <:+: chunks.flatten)
    (hstack : env.stack.length = BUF_SIZE * 4) :
    (read_full_request env.client_in env.stack (BUF_SIZE * 4)).ret = ((BUF_SIZE * 4 - 1 : Nat) : Int) ∧
    ((parse_request chunks.flatten).ret = 0 →
      handle_client fuel env = some [Event.close_client]) ∧
    ∀ p t rc e, p = parse_request chunks.flatten → p.ret ≠ 0 →
      t = adjust_actual_host_uri p.host p.uri →
      (rc, e) = connect_to_target env.dial t.actual_host →
      (rc ≠ 0 → handle_client fuel env
        = some [Event.getting (cstr p.host) t.print_uri, e, Event.close_client]) ∧
      (rc = 0 → (∀ i n, 0 < n → 1 ≤ env.server_send i n ∧ env.server_send i n ≤ n) →
        BUF_SIZE * 4 ≤ fuel →
        ∀ relayed, relay_response fuel env.server_in env.client_send = some relayed →
        ∃ sent, server_bytes sent = chunks.flatten ∧
          handle_client fuel env = some ([Event.getting (cstr p.host) t.print_uri, e] ++ sent
            ++ relayed ++ [Event.close_server, Event.close_client])) := by
  have hparse : parse_request (chunks.flatten ++ [0]) = parse_request chunks.flatten :=
    parse_request_congr (cstr_append_nul_any _ _)
  refine ⟨?_, ?_, ?_⟩
  · rw [hin, read_full_request_fill chunks more env.stack hne hlen hno]
  · intro h0
    rw [handle_client_fill fuel env chunks more hin hne hlen hno hstack]
    unfold handle_client_tail
    simp [hparse, h0]
  · intro p t rc e hp hret ht hc
    rw [handle_client_fill fuel env chunks more hin hne hlen hno hstack]
    unfold handle_client_tail
    simp only [hparse, ← hp, ← ht, ← hc, List.nil_append]
    refine ⟨?_, ?_⟩
    · intro hrc
      have : (rc != 0) = true := by simpa using hrc
      simp [this, hret]
    · intro hrc hsend hfuel relayed hrel
      subst hrc
      obtain ⟨calls2, sent, hrun, hout⟩ :=
        send_loop_upto env.server_send Event.to_server server_bytes
          (fun log d => by simp [server_bytes_append, server_bytes]) hsend
          (chunks.flatten ++ [0]) (BUF_SIZE * 4 - 1) fuel 0 0 [] (by omega)
      refine ⟨sent, ?_, ?_⟩
      · rw [hout, ← hlen]
        simp [server_bytes]
      · simp [forward_request_to_server, hrun, hrel, hret]


/-! ## Instances -/

theorem parse_request_padded (pad : List Nat) :
    parse_request (bytes "GET / HTTP/1.1\r\nHost: a\r\n" ++ pad) = ⟨1, bytes "/", bytes "a"⟩ := by
  rfl

/-- For C4: the theorem at `full_env`, whose client delivers `full_request`. -/
theorem handle_client_buffer_full_witness :
    (read_full_request full_env.client_in full_env.stack (BUF_SIZE * 4)).ret
      = ((BUF_SIZE * 4 - 1 : Nat) : Int) :=
  (handle_client_buffer_full 1 full_env [full_request] [] rfl
    (fun c hc => by
      rw [List.mem_singleton] at hc
      subst hc
      intro h
      have := full_request_length
      rw [h] at this
      exact absurd this (by decide))
    (by rw [List.flatten_singleton]; exact full_request_length)
    (by rw [List.flatten_singleton]; exact full_request_no_blank_line)
    (by
      show (List.replicate 32768 0).length = BUF_SIZE * 4
      rw [List.length_replicate]
      decide)).1

/-- Refutation of C4 as stated: `full_request` fills the buffer without a
blank line, starts with a valid request line and has a Host header;
`read_full_request` returns its length, and `handle_client` connects to the
host `a` and forwards all of it upstream. -/
theorem full_buffer_is_forwarded :
    full_request.length = BUF_SIZE * 4 - 1 ∧
    ¬ bytes "\r\n\r\n" <:+: full_request ∧
    (read_full_request full_env.client_in full_env.stack (BUF_SIZE * 4)).ret = 32767 ∧
    handle_client 1 full_env
      = some [Event.getting (bytes "a") (bytes "/"),
              Event.connect (bytes "a") (bytes "80") true,
              Event.to_server full_request,
              Event.close_server, Event.close_client] := by
  have hne : ∀ c ∈ [full_request], c ≠ [] := by
    intro c hc
    rw [List.mem_singleton] at hc
    subst hc
    intro h
    have := full_request_length
    rw [h] at this
    exact absurd this (by decide)
  have hlen : [full_request].flatten.length = BUF_SIZE * 4 - 1 := by
    rw [List.flatten_singleton]; exact full_request_length
  have hno : ¬ bytes "\r\n\r\n" <:+: [full_request].flatten := by
    rw [List.flatten_singleton]; exact full_request_no_blank_line
  have hstack : full_env.stack.length = BUF_SIZE * 4 := by
    show (List.replicate 32768 0).length = BUF_SIZE * 4
    rw [List.length_replicate]
    decide
  have hin : full_env.client_in = [full_request].map Recv.data ++ [] := rfl
  refine ⟨full_request_length, full_request_no_blank_line, ?_, ?_⟩
  · rw [hin, read_full_request_fill [full_request] [] full_env.stack hne hlen hno]
    decide
  · rw [handle_client_fill 1 full_env [full_request] [] hin hne hlen hno hstack,
      List.flatten_singleton]
    have hparse : parse_request (full_request ++ [0]) = ⟨1, bytes "/", bytes "a"⟩ := by
      unfold full_request
      rw [List.append_assoc]
      exact parse_request_padded _
    have hsize : BUF_SIZE * 4 - 1 = 32767 := by decide
    have htake : (full_request ++ [0]).take 32767 = full_request := by
      rw [← hsize, ← full_request_length, List.take_left]
    have hfwd : forward_request_to_server 1 full_env.server_send (full_request ++ [0]) 32767
        = some (0, [Event.to_server full_request]) := by
      have h1 : ¬ ((32767 : Nat) : Int) < 0 := by decide
      have h2 : ((32767 : Nat) : Int).toNat = 32767 := by decide
      simp only [forward_request_to_server, send_loop, full_env, Nat.sub_zero, Nat.zero_add,
        h1, h2, if_false, List.drop_zero, List.nil_append, htake, Nat.lt_irrefl,
        Nat.zero_lt_succ, if_true, show (0 : Nat) < 32767 by decide]
    have hrelay : relay_response 1 full_env.server_in full_env.client_send = some [] := by rfl
    have hadj : adjust_actual_host_uri (bytes "a") (bytes "/") = ⟨bytes "a", bytes "/", bytes "/"⟩ := by
      decide
    have hconn : connect_to_target full_env.dial (bytes "a")
        = (0, Event.connect (bytes "a") (bytes "80") true) := by rfl
    have hc : cstr (bytes "a") = bytes "a" := by decide
    unfold handle_client_tail
    simp only [hparse, hadj, hconn, hsize, hfwd, hrelay, hc]
    rfl

/-- C5 fails on the code: a client that sends an unterminated request and
closes.  `read_full_request` returns `-1`, which `handle_client` stores in a
`size_t`; the test `request_len <= 0` is false and the function goes on to
parse the partial request, connect upstream and send bytes there. -/
theorem handle_client_read_failure :
    (read_full_request [Recv.data (bytes "GET / HTTP/1.1\r\nHost: a\r\n"), Recv.data []]
        (List.replicate 32768 0) (BUF_SIZE * 4)).ret = -1 ∧
    handle_client 2
      { client_in := [Recv.data (bytes "GET / HTTP/1.1\r\nHost: a\r\n"), Recv.data []]
        stack := List.replicate 32768 0
        dial := fun _ _ => true
        server_send := fun i _ => if i = 0 then 25 else -1
        server_in := []
        client_send := fun _ n => (n : Int) }
      = some [Event.close_client,
              Event.getting (bytes "a") (bytes "/"),
              Event.connect (bytes "a") (bytes "80") true,
              Event.to_server (bytes "GET / HTTP/1.1\r\nHost: a\r\n"),
              Event.close_server, Event.close_client] := by
  decide

/-- C6 fails on the code: `parse_request` returns 1 on request lines with a
changed or missing version part, with an empty URI, and with a method token
other than `GET`. -/
theorem parse_request_accepts_malformed_lines :
    parse_request (bytes "GET /x FOO\r\nHost: a\r\n\r\n") = ⟨1, bytes "/x", bytes "a"⟩ ∧
    parse_request (bytes "GET /x\r\nHost: a\r\n\r\n") = ⟨1, bytes "/x", bytes "a"⟩ ∧
    parse_request (bytes "GET  HTTP/1.1\r\nHost: a\r\n\r\n") = ⟨1, bytes "HTTP/1.1", bytes "a"⟩ ∧
    parse_request (bytes "GETX / HTTP/1.1\r\nHost: a\r\n\r\n") = ⟨1, bytes "X", bytes "a"⟩ := by
  decide

/-- C7 fails on the code: the header block `Accept: x` has no `Host:`, yet
`parse_request` returns 1 with the host taken from bytes read after the blank
line, and `handle_client` connects there. -/
theorem parse_request_host_after_blank_line :
    parse_request (bytes "GET / HTTP/1.1\r\nAccept: x\r\n\r\nHost: evil.test\r\n")
      = ⟨1, bytes "/", bytes "evil.test"⟩ ∧
    handle_client 1
      { client_in := [Recv.data (bytes "GET / HTTP/1.1\r\nAccept: x\r\n\r\nHost: evil.test\r\n")]
        stack := List.replicate 32768 0
        dial := fun _ _ => false
        server_send := fun _ n => (n : Int)
        server_in := []
        client_send := fun _ n => (n : Int) }
      = some [Event.getting (bytes "evil.test") (bytes "/"),
              Event.connect (bytes "evil.test") (bytes "80") false,
              Event.close_client] := by
  decide

/-- C8 fails on the code: a response with the header `content-length: 5`
before the boundary is relayed with no `Response body length` line, while
the same response with `Content-Length: 5` gets the line. -/
theorem relay_response_lowercase_content_length :
    relay_response 2 [Recv.data (bytes "HTTP/1.1 200 OK\r\ncontent-length: 5\r\n\r\nhello")]
        (fun _ n => (n : Int))
      = some [Event.to_client (bytes "HTTP/1.1 200 OK\r\ncontent-length: 5\r\n\r\nhello")] ∧
    relay_response 2 [Recv.data (bytes "HTTP/1.1 200 OK\r\nContent-Length: 5\r\n\r\nhello")]
        (fun _ n => (n : Int))
      = some [Event.body_length 5,
              Event.to_client (bytes "HTTP/1.1 200 OK\r\nContent-Length: 5\r\n\r\nhello")] := by
  decide

/-- For C2: the instance `p = /path`, `h = example.com`. -/
theorem parse_request_well_formed_witness :
    parse_request (bytes "GET " ++ bytes "/path" ++ bytes " HTTP/1.1\r\nHost: "
        ++ bytes "example.com" ++ bytes "\r\n\r\n")
      = ⟨1, bytes "/path", bytes "example.com"⟩ :=
  parse_request_well_formed (bytes "/path") (bytes "example.com")
    (by decide) (by decide) (by decide) (by decide) (by decide) (by decide) (by decide)

/-- Refutation of C2 as stated: the two-byte path `/` NUL is free of
whitespace, and `parse_request` returns 0 on its request. -/
theorem parse_request_nul_in_path :
    (1 ≤ [47, 0].length ∧ [47, 0].length ≤ 1023) ∧
    (∀ c ∈ [47, 0], isspace c = false) ∧
    parse_request (bytes "GET " ++ [47, 0] ++ bytes " HTTP/1.1\r\nHost: "
        ++ bytes "example.com" ++ bytes "\r\n\r\n")
      = ⟨0, [], []⟩ := by
  decide

/-- For C9: the request `GET /path HTTP/1.1` with `Host: example.com`. -/
theorem actual_uri_begins_with_slash_witness :
    (adjust_actual_host_uri
      (parse_request (bytes "GET /path HTTP/1.1\r\nHost: example.com\r\n\r\n")).host
      (parse_request (bytes "GET /path HTTP/1.1\r\nHost: example.com\r\n\r\n")).uri).actual_uri.head?
      = some 47 :=
  actual_uri_begins_with_slash (bytes "GET /path HTTP/1.1\r\nHost: example.com\r\n\r\n")
    (by decide) (Or.inl (by decide))

/-- Refutation of C9 as stated: accepted requests whose `actual_uri` does not
begin with `/`, one in origin form and one in absolute form with a host of
256 bytes. -/
theorem actual_uri_without_slash :
    (parse_request (bytes "GET foo HTTP/1.1\r\nHost: a\r\n\r\n")).ret = 1 ∧
    (adjust_actual_host_uri
      (parse_request (bytes "GET foo HTTP/1.1\r\nHost: a\r\n\r\n")).host
      (parse_request (bytes "GET foo HTTP/1.1\r\nHost: a\r\n\r\n")).uri).actual_uri
      = bytes "foo" ∧
    (parse_request (bytes "GET http://" ++ List.replicate 256 97
      ++ bytes "/x HTTP/1.1\r\nHost: a\r\n\r\n")).ret = 1 ∧
    (adjust_actual_host_uri
      (parse_request (bytes "GET http://" ++ List.replicate 256 97
        ++ bytes "/x HTTP/1.1\r\nHost: a\r\n\r\n")).host
      (parse_request (bytes "GET http://" ++ List.replicate 256 97
        ++ bytes "/x HTTP/1.1\r\nHost: a\r\n\r\n")).uri).actual_uri.head?
      = some 104 := by
  decide

/-- For C10: the request `GET /path HTTP/1.1` with `Host: example.com`, and
the accepted request whose Host value is a blank followed by a tab. -/
theorem parse_request_field_lengths_witness :
    (1 ≤ (parse_request (bytes "GET /path HTTP/1.1\r\nHost: example.com\r\n\r\n")).uri.length ∧
     (parse_request (bytes "GET /path HTTP/1.1\r\nHost: example.com\r\n\r\n")).uri.length ≤ 1023 ∧
     (parse_request (bytes "GET /path HTTP/1.1\r\nHost: example.com\r\n\r\n")).host.length ≤ 255 ∧
     ((parse_request (bytes "GET /path HTTP/1.1\r\nHost: example.com\r\n\r\n")).host = [] ↔
       ∀ c ∈ host_value (bytes "GET /path HTTP/1.1\r\nHost: example.com\r\n\r\n"),
         c = 32 ∨ c = 9)) ∧
    (host_value (bytes "GET / HTTP/1.1\r\nHost: \t\r\n\r\n") = [32, 9] ∧
     (parse_request (bytes "GET / HTTP/1.1\r\nHost: \t\r\n\r\n")).host = []) :=
  ⟨parse_request_field_lengths (bytes "GET /path HTTP/1.1\r\nHost: example.com\r\n\r\n")
    (by decide),
   by decide,
   (parse_request_field_lengths (bytes "GET / HTTP/1.1\r\nHost: \t\r\n\r\n")
    (by decide)).2.2.2.mpr (by decide)⟩

/-- Refutation of C10 as stated: `parse_request` returns 1 with an empty
`host` when the Host header's value is empty or only spaces and tabs. -/
theorem parse_request_empty_host :
    parse_request (bytes "GET / HTTP/1.1\r\nHost:\r\n\r\n") = ⟨1, bytes "/", []⟩ ∧
    parse_request (bytes "GET / HTTP/1.1\r\nHost: \t \r\n\r\n") = ⟨1, bytes "/", []⟩ := by
  decide

end Proxy
